import Mathlib

/-!
Verification development for the clean-node-server host runtime.

The TypeScript sources are embedded shallowly:
* strings that cross the guest boundary are lists of Unicode scalar values
  (`List Nat`), guest linear memory is a list of bytes (`List Nat`);
* the platform UTF-8 codec (TextEncoder / TextDecoder) is modelled by
  `utf8Encode` / `utf8Decode`;
* stateful modules (session store, memory runtime, database bridge) become
  explicit state-passing functions;
* asynchronous host calls take the eventually-settled driver value as an
  explicit argument, and the function returns both the value handed to the
  guest and the state after the promise resolves.
-/

namespace CleanNode


/-- Valid Unicode scalar value: below 0x110000 and not a surrogate.
Well-formed strings consist of such scalars. -/
abbrev ValidScalar (c : Nat) : Prop := c < 1114112 ∧ (c < 55296 ∨ 57343 < c)

/-- A well-formed string: every code point is a valid scalar. -/
abbrev ValidCodes (s : List Nat) : Prop := ∀ c ∈ s, ValidScalar c

/-- UTF-8 encoding of one scalar value (models TextEncoder on one character). -/
def utf8EncodeChar (c : Nat) : List Nat :=
  if c < 128 then [c]
  else if c < 2048 then [192 + c / 64, 128 + c % 64]
  else if c < 65536 then [224 + c / 4096, 128 + c / 64 % 64, 128 + c % 64]
  else [240 + c / 262144, 128 + c / 4096 % 64, 128 + c / 64 % 64, 128 + c % 64]

/-- UTF-8 encoding of a string (models TextEncoder.encode). -/
def utf8Encode (s : List Nat) : List Nat := s.flatMap utf8EncodeChar

/-- Continuation byte predicate for UTF-8 decoding. -/
abbrev IsCont (b : Nat) : Prop := 128 ≤ b ∧ b ≤ 191

/-- Decode one scalar from the front of a byte list, rejecting truncated
sequences, bad continuation bytes, overlong forms and surrogates. -/
def utf8DecodeOne : List Nat → Option (Nat × List Nat)
  | [] => none
  | b0 :: rest =>
    if b0 < 128 then some (b0, rest)
    else if 194 ≤ b0 ∧ b0 ≤ 223 then
      match rest with
      | b1 :: rest1 =>
        if IsCont b1 then some ((b0 - 192) * 64 + (b1 - 128), rest1) else none
      | [] => none
    else if 224 ≤ b0 ∧ b0 ≤ 239 then
      match rest with
      | b1 :: b2 :: rest2 =>
        if IsCont b1 ∧ IsCont b2 then
          let c := (b0 - 224) * 4096 + (b1 - 128) * 64 + (b2 - 128)
          if 2048 ≤ c ∧ (c < 55296 ∨ 57343 < c) then some (c, rest2) else none
        else none
      | _ => none
    else if 240 ≤ b0 ∧ b0 ≤ 244 then
      match rest with
      | b1 :: b2 :: b3 :: rest3 =>
        if IsCont b1 ∧ IsCont b2 ∧ IsCont b3 then
          let c := (b0 - 240) * 262144 + (b1 - 128) * 4096 + (b2 - 128) * 64 + (b3 - 128)
          if 65536 ≤ c ∧ c < 1114112 then some (c, rest3) else none
        else none
      | _ => none
    else none

/-- Fuelled total decoder with U+FFFD replacement on errors; on valid input it
agrees with TextDecoder (utf-8, non-fatal), which the marshaller uses. -/
def utf8DecodeAux : Nat → List Nat → List Nat
  | _, [] => []
  | 0, _ :: _ => []
  | fuel + 1, b :: bs =>
    match utf8DecodeOne (b :: bs) with
    | some (c, rest) => c :: utf8DecodeAux fuel rest
    | none => 65533 :: utf8DecodeAux fuel bs

/-- Total UTF-8 decode with replacement (models TextDecoder.decode). -/
def utf8Decode (bs : List Nat) : List Nat := utf8DecodeAux bs.length bs

/-- Fuelled strict decoder: fails on any malformed input (used to model
decodeURIComponent, which throws URIError on malformed sequences). -/
def utf8DecodeStrictAux : Nat → List Nat → Option (List Nat)
  | _, [] => some []
  | 0, _ :: _ => none
  | fuel + 1, b :: bs =>
    match utf8DecodeOne (b :: bs) with
    | some (c, rest) => (utf8DecodeStrictAux fuel rest).map (c :: ·)
    | none => none

/-- Strict UTF-8 decode. -/
def utf8DecodeStrict (bs : List Nat) : Option (List Nat) :=
  utf8DecodeStrictAux bs.length bs

/-!
Memory marshaller, embedded from `src/wasm/memory.ts`. Guest linear memory is
a byte list; `DataView` little-endian 32-bit access and `Uint8Array.set` are
modelled by `readLe32` / `writeBytes` (the callers below only use them with
in-bounds offsets, where the JS operations do not throw).
-/

/-- Guest linear memory: a flat list of bytes. -/
abbrev Memory := List Nat

/-- Marshalling failures: the out-of-bounds error thrown by `readRawString`
and the DataView range error, and the invalid-length error thrown by
`readLengthPrefixedString`. -/
inductive MemError
  | outOfBounds
  | invalidLength
deriving DecidableEq, Repr

/-- Allocation failure: the guest allocator returned a null pointer. -/
inductive AllocError
  | allocationFailed
deriving DecidableEq, Repr

/-- Overwrite `bs` into `mem` starting at `off` (models `Uint8Array.set` /
`DataView.setUint32` for in-bounds writes). -/
def writeBytes (mem : Memory) (off : Nat) (bs : List Nat) : Memory :=
  mem.take off ++ bs ++ mem.drop (off + bs.length)

/-- Little-endian 4-byte representation of a 32-bit value. -/
def le32 (n : Nat) : List Nat :=
  [n % 256, n / 256 % 256, n / 65536 % 256, n / 16777216 % 256]

/-- Value of a 4-byte little-endian sequence. -/
def leVal : List Nat → Nat
  | [a, b, c, d] => a + 256 * b + 65536 * c + 16777216 * d
  | _ => 0

/-- Little-endian `getUint32` at `off` (callers check `off + 4` in bounds). -/
def readLe32 (mem : Memory) (off : Nat) : Nat :=
  leVal ((mem.drop off).take 4)

/-- Embeds `readRawString(memory, ptr, len)` of `src/wasm/memory.ts`:
null pointer or zero length give the empty string, then the bounds check
`ptr + len > memory.buffer.byteLength` throws, otherwise exactly the `len`
bytes at `ptr` are UTF-8 decoded. -/
def readRawString (mem : Memory) (ptr len : Nat) : Except MemError (List Nat) :=
  if ptr = 0 ∨ len = 0 then .ok []
  else if mem.length < ptr + len then .error .outOfBounds
  else .ok (utf8Decode ((mem.drop ptr).take len))

/-- Embeds `readLengthPrefixedString(memory, ptr)`: null pointer gives the
empty string; the `getUint32` read throws when `ptr + 4` is out of bounds;
a zero stored length gives the empty string; a stored length exceeding
`byteLength - ptr - 4` throws; otherwise the bytes are UTF-8 decoded. -/
def readLengthPrefixedString (mem : Memory) (ptr : Nat) : Except MemError (List Nat) :=
  if ptr = 0 then .ok []
  else if mem.length < ptr + 4 then .error .outOfBounds
  else
    let len := readLe32 mem ptr
    if len = 0 then .ok []
    else if mem.length - ptr - 4 < len then .error .invalidLength
    else .ok (utf8Decode ((mem.drop (ptr + 4)).take len))

/-- Embeds `writeLengthPrefixedString(exports, str)`. The guest allocator is
modelled by its result `allocPtr` (the pointer returned by `malloc` for
`4 + utf8Length(str)` bytes): a null pointer throws, otherwise the 4-byte
little-endian length and the UTF-8 bytes are written there. -/
def writeLengthPrefixedString (mem : Memory) (allocPtr : Nat) (s : List Nat) :
    Except AllocError (Nat × Memory) :=
  let bytes := utf8Encode s
  if allocPtr = 0 then .error .allocationFailed
  else .ok (allocPtr,
    writeBytes (writeBytes mem allocPtr (le32 bytes.length)) (allocPtr + 4) bytes)

/-!
Route registry, embedded from `src/router/index.ts`. `compilePattern` turns a
pattern into a token list: `:name` becomes a required one-or-more non-slash
capture, `:name?` compiles (after the wildcard replacement pass rewrites the
asterisk the optional-parameter pass introduced) to one non-slash character
followed by a nested greedy any-capture, `*` becomes a greedy any-capture,
every other character is a literal. Parameter names are collected with the
optional names first, as the two replacement passes of the source do.
`tokMatch` gives the anchored, leftmost-greedy semantics of the compiled
regular expression, returning the capture list. -/

/-- Compiled pattern token. -/
inductive PatTok
  | lit (c : Char)
  | param (name : String)
  | optp (name : String)
  | star
deriving DecidableEq, Repr

/-- Word character of the `\w` class used by the pattern compiler. -/
def wordChar (c : Char) : Bool := c.isAlphanum || c = '_'

/-- Fuelled pattern tokenizer (fuel: length of the input). -/
def tokenizeF : Nat → List Char → List PatTok
  | 0, _ => []
  | _, [] => []
  | fuel + 1, c :: rest =>
    if c = ':' then
      let name := rest.takeWhile wordChar
      if name.isEmpty then PatTok.lit ':' :: tokenizeF fuel rest
      else
        let rest1 := rest.drop name.length
        if rest1.headD ' ' = '?' then
          PatTok.optp (String.mk name) :: tokenizeF fuel rest1.tail
        else PatTok.param (String.mk name) :: tokenizeF fuel rest1
    else if c = '*' then PatTok.star :: tokenizeF fuel rest
    else PatTok.lit c :: tokenizeF fuel rest

/-- Tokenize a route pattern. -/
def tokenize (s : List Char) : List PatTok := tokenizeF s.length s

/-- Names of optional parameters, in order of appearance. -/
def patNamesOpt (ts : List PatTok) : List String :=
  ts.filterMap fun t => match t with | PatTok.optp n => some n | _ => none

/-- Names of required parameters, in order of appearance. -/
def patNamesReq (ts : List PatTok) : List String :=
  ts.filterMap fun t => match t with | PatTok.param n => some n | _ => none

/-- Embeds `RouteRegistry.compilePattern`: the optional-parameter replacement
pass pushes its names before the required-parameter pass does. -/
def compilePattern (pattern : String) : List PatTok × List String :=
  let ts := tokenize pattern.data
  (ts, patNamesOpt ts ++ patNamesReq ts)

/-- Length of the leading run of non-slash characters. -/
def nonSlashLen (s : List Char) : Nat := (s.takeWhile (· ≠ '/')).length

/-- Fuelled anchored matcher for a compiled pattern, with leftmost-greedy
backtracking exactly like the anchored JS regular expression; returns the
capture list in group order. A required parameter captures one-or-more
non-slash characters; the compiled form of an optional parameter captures one
non-slash character followed by a greedy any-run (with its nested extra
group); a wildcard captures a greedy any-run. -/
def tokMatchF : Nat → List PatTok → List Char → Option (List (List Char))
  | 0, _, _ => none
  | _ + 1, [], s => if s.isEmpty then some [] else none
  | fuel + 1, PatTok.lit ch :: ts, s =>
    match s with
    | [] => none
    | x :: xs => if x = ch then tokMatchF fuel ts xs else none
  | fuel + 1, PatTok.param _ :: ts, s =>
    let m := nonSlashLen s
    (List.range m).findSome? fun i =>
      (tokMatchF fuel ts (s.drop (m - i))).map fun caps => s.take (m - i) :: caps
  | fuel + 1, PatTok.optp _ :: ts, s =>
    match s with
    | [] => none
    | x :: xs =>
      if x = '/' then none
      else
        (List.range (xs.length + 1)).findSome? fun i =>
          (tokMatchF fuel ts (xs.drop (xs.length - i))).map fun caps =>
            (x :: xs.take (xs.length - i)) :: xs.take (xs.length - i) :: caps
  | fuel + 1, PatTok.star :: ts, s =>
    (List.range (s.length + 1)).findSome? fun i =>
      (tokMatchF fuel ts (s.drop (s.length - i))).map fun caps =>
        s.take (s.length - i) :: caps

/-- Anchored match of a compiled pattern against a path. -/
def tokMatch (toks : List PatTok) (s : List Char) : Option (List (List Char)) :=
  tokMatchF (toks.length + 1) toks s

/-- Registered route, embedding the `RouteHandler` record of `src/types`. -/
structure RouteHandler where
  method : String
  pattern : String
  toks : List PatTok
  paramNames : List String
  handlerIndex : Nat
  isProtected : Bool
  requiredRole : Option String
deriving DecidableEq, Repr

/-- Embeds `RouteRegistry.register`: compiles the pattern and appends the
route, uppercasing the method. -/
def register (routes : List RouteHandler) (method pat : String)
    (handlerIndex : Nat) (isProt : Bool) (requiredRole : Option String) :
    List RouteHandler :=
  let cp := compilePattern pat
  routes ++
    [{ method := method.toUpper
       pattern := pat
       toks := cp.1
       paramNames := cp.2
       handlerIndex := handlerIndex
       isProtected := isProt
       requiredRole := requiredRole }]

/-- Hexadecimal digit value, as used by percent-decoding. -/
def hexVal (c : Char) : Option Nat :=
  if '0' ≤ c ∧ c ≤ '9' then some (c.toNat - 48)
  else if 'A' ≤ c ∧ c ≤ 'F' then some (c.toNat - 55)
  else if 'a' ≤ c ∧ c ≤ 'f' then some (c.toNat - 87)
  else none

/-- Byte stream of a percent-encoded string: `%XX` contributes the byte,
any other character contributes its UTF-8 encoding; malformed escapes fail. -/
def percentBytes : List Char → Option (List Nat)
  | [] => some []
  | '%' :: h1 :: h2 :: rest =>
    match hexVal h1, hexVal h2, percentBytes rest with
    | some a, some b, some tail => some ((16 * a + b) :: tail)
    | _, _, _ => none
  | '%' :: _ => none
  | c :: rest => (percentBytes rest).map fun tail => utf8EncodeChar c.toNat ++ tail

/-- Models `decodeURIComponent`: percent-decode then strict UTF-8 decode;
failure models the thrown URIError. -/
def pdecode (cs : List Char) : Option (List Nat) :=
  (percentBytes cs).bind utf8DecodeStrict

/-- Pair each parameter name with the percent-decoded capture of the same
index (a missing capture decodes as the empty string, as `match[i+1] || ''`
does). -/
def buildParams : List String → List (List Char) → Option (List (String × List Nat))
  | [], _ => some []
  | n :: ns, caps =>
    match pdecode (caps.headD []), buildParams ns caps.tail with
    | some v, some rest => some ((n, v) :: rest)
    | _, _ => none

/-- Embeds the loop of `RouteRegistry.match`: scan the routes in registration
order; skip a route whose method matches neither the uppercased request
method nor the `*` wildcard, or whose pattern does not match; on the first
match, percent-decode the captures into the parameter map (a decoding
failure propagates as the thrown error). -/
def matchGo (um : String) (path : List Char) :
    List RouteHandler → Except Unit (Option (RouteHandler × List (String × List Nat)))
  | [] => .ok none
  | r :: rs =>
    if r.method = um ∨ r.method = "*" then
      match tokMatch r.toks path with
      | some caps =>
        match buildParams r.paramNames caps with
        | some ps => .ok (some (r, ps))
        | none => .error ()
      | none => matchGo um path rs
    else matchGo um path rs

/-- Embeds `RouteRegistry.match(method, path)`. -/
def matchRoute (routes : List RouteHandler) (method path : String) :
    Except Unit (Option (RouteHandler × List (String × List Nat))) :=
  matchGo method.toUpper path.data routes

/-- Static route `/users/me`, registered first. -/
def demoStatic : RouteHandler :=
  { method := "GET".toUpper, pattern := "/users/me",
    toks := (compilePattern "/users/me").1,
    paramNames := (compilePattern "/users/me").2,
    handlerIndex := 0, isProtected := false, requiredRole := none }

/-- Parameterized route `/users/:id`, registered second. -/
def demoParam : RouteHandler :=
  { method := "GET".toUpper, pattern := "/users/:id",
    toks := (compilePattern "/users/:id").1,
    paramNames := (compilePattern "/users/:id").2,
    handlerIndex := 1, isProtected := false, requiredRole := none }

/-- Registry with `/users/me` registered before `/users/:id`. -/
def demoRoutes : List RouteHandler :=
  register (register [] "GET" "/users/me" 0 false none) "GET" "/users/:id" 1 false none

/-!
Association-list model of the JS `Map` (and of plain-object records used as
maps): `mapGet`, `mapSet` (update in place or append), `mapDelete`. -/

/-- First value bound to `k` (models `Map.get`). -/
def mapGet {α β : Type} [DecidableEq α] : List (α × β) → α → Option β
  | [], _ => none
  | p :: rest, k => if p.1 = k then some p.2 else mapGet rest k

/-- Bind `k` to `v`, replacing an existing binding in place, else appending
(models `Map.set`). -/
def mapSet {α β : Type} [DecidableEq α] (m : List (α × β)) (k : α) (v : β) :
    List (α × β) :=
  if (mapGet m k).isSome then m.map fun q => if q.1 = k then (k, v) else q
  else m ++ [(k, v)]

/-- Remove every binding of `k` (models `Map.delete`). -/
def mapDelete {α β : Type} [DecidableEq α] (m : List (α × β)) (k : α) :
    List (α × β) :=
  m.filter fun q => decide (q.1 ≠ k)

/-!
Session store, embedded from the `InMemorySessionStore` source file.
`Date.now()` is passed explicitly as `now` (milliseconds); the random session
identifier is passed as the `sessionId` argument; claims are an opaque
string-to-string record. -/

/-- Session record stored by the session store. -/
structure SessionData where
  userId : String
  role : String
  claims : List (String × String)
  createdAt : Int
  expiresAt : Int
deriving DecidableEq, Repr

/-- The store state: the `sessions` map. -/
structure SessionStoreM where
  sessions : List (String × SessionData)
deriving DecidableEq, Repr

namespace InMemorySessionStore

/-- Embeds `create(data, ttlSeconds)`: stores
`{...data, createdAt: now, expiresAt: now + ttlSeconds * 1000}` under the
freshly generated identifier. The source applies no validation to
`ttlSeconds`. -/
def create (st : SessionStoreM) (sessionId : String) (now : Int)
    (userId role : String) (claims : List (String × String)) (ttlSeconds : Int) :
    SessionStoreM :=
  { sessions := mapSet st.sessions sessionId
      { userId := userId, role := role, claims := claims,
        createdAt := now, expiresAt := now + ttlSeconds * 1000 } }

/-- Embeds `get(sessionId)`: absent for an unknown id; for a present record,
`Date.now() > expiresAt` deletes the record and returns absent, otherwise the
record is returned. The second component is the store after the lookup. -/
def get (st : SessionStoreM) (now : Int) (sessionId : String) :
    Option SessionData × SessionStoreM :=
  match mapGet st.sessions sessionId with
  | none => (none, st)
  | some s =>
    if s.expiresAt < now then (none, { sessions := mapDelete st.sessions sessionId })
    else (some s, st)

/-- Embeds `size()`: number of entries of the sessions map. -/
def size (st : SessionStoreM) : Nat := st.sessions.length

end InMemorySessionStore

/-- Embeds the `_session_create_with_ttl` capability: the guest-supplied
`ttlSeconds` argument is passed through to `create` unchanged. -/
def sessionCreateWithTtl (st : SessionStoreM) (sessionId : String) (now : Int)
    (userId role : String) (claims : List (String × String)) (ttlSeconds : Int) :
    SessionStoreM :=
  InMemorySessionStore.create st sessionId now userId role claims ttlSeconds

/-- Store holding one session created at time 0 with `ttlSeconds = 1`. -/
def demoStore : SessionStoreM :=
  InMemorySessionStore.create { sessions := [] } "sid" 0 "u" "user" [] 1

/-!
Memory runtime, embedded from `src/bridge/memory-runtime.ts`. The module-level
`scopeStack` and `refCounts` plus the observable deallocator invocations form
`MemRT`; `hasFree` tells whether the guest exports `free`; the pointer the
guest allocator returns is the `mallocPtr` argument. The source stack grows at
the array end; the model keeps the top at the head, with each scope's
allocation list in push order. -/

/-- Module-global memory-runtime state, plus the trace of `free` calls. -/
structure MemRT where
  scopeStack : List (List Nat)
  refCounts : List (Nat × Nat)
  freeCalls : List Nat
deriving DecidableEq, Repr

/-- The `refCounts.get(ptr) || 0` read. -/
def rcLookup (m : List (Nat × Nat)) (p : Nat) : Nat := (mapGet m p).getD 0

/-- Record a pointer in the top scope, if any (`scopeStack[len-1].allocations.push`). -/
def pushAlloc (stack : List (List Nat)) (ptr : Nat) : List (List Nat) :=
  match stack with
  | [] => []
  | top :: rest => (top ++ [ptr]) :: rest

/-- Embeds `mem_alloc(size)`: non-positive sizes return the null pointer;
otherwise the malloc result is recorded in the top scope and its refcount set
to 1. -/
def mem_alloc (st : MemRT) (size : Int) (mallocPtr : Nat) : MemRT × Nat :=
  if size ≤ 0 then (st, 0)
  else
    ({ st with scopeStack := pushAlloc st.scopeStack mallocPtr
               refCounts := mapSet st.refCounts mallocPtr 1 }, mallocPtr)

/-- Embeds `mem_retain(ptr)`. -/
def mem_retain (st : MemRT) (ptr : Nat) : MemRT :=
  if ptr = 0 then st
  else { st with refCounts := mapSet st.refCounts ptr (rcLookup st.refCounts ptr + 1) }

/-- Embeds `mem_release(ptr)`: null pointers return immediately; a count of
at most 1 (including the `|| 0` default for untracked pointers) invokes the
guest deallocator when exported and deletes the tracking entry; otherwise the
count is decremented. -/
def mem_release (hasFree : Bool) (st : MemRT) (ptr : Nat) : MemRT :=
  if ptr = 0 then st
  else
    let count := rcLookup st.refCounts ptr
    if count ≤ 1 then
      { st with refCounts := mapDelete st.refCounts ptr
                freeCalls := if hasFree then st.freeCalls ++ [ptr] else st.freeCalls }
    else { st with refCounts := mapSet st.refCounts ptr (count - 1) }

/-- Embeds `mem_scope_push()`. -/
def mem_scope_push (st : MemRT) : MemRT :=
  { st with scopeStack := [] :: st.scopeStack }

/-- One iteration of the `mem_scope_pop` release loop (no null check in the
source loop). -/
def releaseScopeEntry (hasFree : Bool) (st : MemRT) (ptr : Nat) : MemRT :=
  let count := rcLookup st.refCounts ptr
  if count ≤ 1 then
    { st with refCounts := mapDelete st.refCounts ptr
              freeCalls := if hasFree then st.freeCalls ++ [ptr] else st.freeCalls }
  else { st with refCounts := mapSet st.refCounts ptr (count - 1) }

/-- Embeds `mem_scope_pop()`: pop the top scope and release its allocations
in push order. -/
def mem_scope_pop (hasFree : Bool) (st : MemRT) : MemRT :=
  match st.scopeStack with
  | [] => st
  | scope :: rest => scope.foldl (releaseScopeEntry hasFree) { st with scopeStack := rest }

/-- Embeds `resetMemoryRuntime()`: clears the stack and refcount map. It is
exported but never invoked by the request lifecycle. -/
def resetMemoryRuntime (st : MemRT) : MemRT :=
  { st with scopeStack := [], refCounts := [] }

/-- Effect of creating a fresh guest instance on the module-global memory
runtime state: none. `CleanNodeServer.createWasmState` and `handleRequest`
in `src/server.ts` never call `resetMemoryRuntime`, and instantiation touches
neither `scopeStack` nor `refCounts`. -/
def createInstanceMemEffect (st : MemRT) : MemRT := st

/-!
Database bridge, embedded from the `_db_query` / `_db_execute` source. The
module-level cache (`lastQueryResult`, `lastExecuteResult`) is explicit
state; concrete driver result payloads are abstracted by identifiers (the
serialized JSON of distinct driver results is distinct). Each call returns
the value handed synchronously to the guest together with the state after
the driver promise settles. -/

/-- Value `_db_query` hands to the guest: the no-database error envelope, the
default `rows: [], count: 0` envelope, or a (cached) serialized driver
result. -/
inductive DbRet
  | noDb
  | defaultEmpty
  | result (r : Nat)
deriving DecidableEq, Repr

/-- Module-level cache of the database bridge. -/
structure DbBridgeState where
  lastQueryResult : Option Nat
  lastExecuteResult : Int
deriving DecidableEq, Repr

/-- Initial cache: empty string and 0. -/
def initialDbBridgeState : DbBridgeState :=
  { lastQueryResult := none, lastExecuteResult := 0 }

/-- Embeds `_db_query`: without a database, the error envelope; otherwise the
guest synchronously receives the cached `lastQueryResult` if non-empty, else
the default empty envelope, while the driver's result for the present query
(`currentResult`) only updates the cache when its promise settles. -/
def dbQuery (st : DbBridgeState) (configured : Bool) (currentResult : Nat) :
    DbRet × DbBridgeState :=
  if configured = false then (DbRet.noDb, st)
  else
    ((match st.lastQueryResult with
      | some r => DbRet.result r
      | none => DbRet.defaultEmpty),
     { st with lastQueryResult := some currentResult })

/-- Embeds `_db_execute`: without a database, -1; otherwise the guest
synchronously receives the cached `lastExecuteResult` while the driver's
affected-row count for the present statement only updates the cache when its
promise settles. -/
def dbExecute (st : DbBridgeState) (configured : Bool) (currentCount : Int) :
    Int × DbBridgeState :=
  if configured = false then (-1, st)
  else (st.lastExecuteResult, { st with lastExecuteResult := currentCount })

/-!
Route-registration capability, embedded from `_http_route` in
`src/bridge/http-server.ts` together with the startup flow of
`src/server.ts`. The server has no startup-phase flag: the capability appends
to the shared registry unconditionally; `startupComplete` is threaded through
to show that no branch consults it. -/

/-- Outcome of a guest registration call. -/
inductive RegOutcome
  | accepted
  | rejected
deriving DecidableEq, Repr

/-- Embeds `_http_route(method, path, handlerIndex)`: reads the strings and
registers the route on the shared registry, regardless of phase. -/
def httpRoute (_startupComplete : Bool) (routes : List RouteHandler)
    (method pat : String) (handlerIndex : Nat) : RegOutcome × List RouteHandler :=
  (RegOutcome.accepted, register routes method pat handlerIndex false none)

/-!
Response-body adoption, embedded from the handler-invocation step of
`CleanNodeServer.handleRequest` (`src/server.ts`): a positive handler return
value is read as a length-prefixed string and, when non-empty, stored into
`state.response.body` unconditionally. -/

/-- Response envelope (the fields the adoption step touches). -/
structure RespState where
  status : Int
  body : List Nat
deriving DecidableEq, Repr

/-- Default response of `createDefaultResponse`. -/
def defaultResponse : RespState := { status := 200, body := [] }

/-- Embeds `_http_set_body` (the capability the handler uses to set a body
explicitly; the guest-memory read is elided to its value). -/
def http_set_body (resp : RespState) (s : List Nat) : RespState :=
  { resp with body := s }

/-- Embeds the post-handler step of `handleRequest`: a positive returned
pointer is read as a length-prefixed string (a read failure propagates to the
500 path); a non-empty string is stored as the body, otherwise the envelope
is left as the handler set it. -/
def adoptHandlerResult (resp : RespState) (resultPtr : Int) (mem : Memory) :
    Except MemError RespState :=
  if 0 < resultPtr then
    match readLengthPrefixedString mem resultPtr.toNat with
    | .error e => .error e
    | .ok s => .ok (if s ≠ [] then { resp with body := s } else resp)
  else .ok resp

theorem utf8EncodeChar_ne_nil (c : Nat) : utf8EncodeChar c ≠ [] := by
  unfold utf8EncodeChar
  split_ifs <;> simp

theorem utf8DecodeOne_encodeChar (c : Nat) (h : ValidScalar c) (t : List Nat) :
    utf8DecodeOne (utf8EncodeChar c ++ t) = some (c, t) := by
  obtain ⟨hlt, hsur⟩ := h
  unfold utf8EncodeChar
  by_cases h1 : c < 128
  · simp only [if_pos h1, List.cons_append, List.nil_append, utf8DecodeOne, if_pos h1]
  · by_cases h2 : c < 2048
    · have e0 : ¬ (192 + c / 64 < 128) := by omega
      have e1 : 194 ≤ 192 + c / 64 ∧ 192 + c / 64 ≤ 223 := by omega
      have e2 : IsCont (128 + c % 64) := ⟨by omega, by omega⟩
      simp only [if_neg h1, if_pos h2, List.cons_append, List.nil_append, utf8DecodeOne,
        if_neg e0, if_pos e1, if_pos e2, Option.some.injEq, Prod.mk.injEq]
      exact ⟨by omega, trivial⟩
    · by_cases h3 : c < 65536
      · have e0 : ¬ (224 + c / 4096 < 128) := by omega
        have e1 : ¬ (194 ≤ 224 + c / 4096 ∧ 224 + c / 4096 ≤ 223) := by omega
        have e2 : 224 ≤ 224 + c / 4096 ∧ 224 + c / 4096 ≤ 239 := by omega
        have e3 : IsCont (128 + c / 64 % 64) ∧ IsCont (128 + c % 64) :=
          ⟨⟨by omega, by omega⟩, ⟨by omega, by omega⟩⟩
        have ev : (224 + c / 4096 - 224) * 4096 + (128 + c / 64 % 64 - 128) * 64 +
            (128 + c % 64 - 128) = c := by omega
        have e4 : 2048 ≤ c ∧ (c < 55296 ∨ 57343 < c) := ⟨by omega, hsur⟩
        simp only [if_neg h1, if_neg h2, if_pos h3, List.cons_append, List.nil_append,
          utf8DecodeOne, if_neg e0, if_neg e1, if_pos e2, if_pos e3, ev, if_pos e4]
      · have e0 : ¬ (240 + c / 262144 < 128) := by omega
        have e1 : ¬ (194 ≤ 240 + c / 262144 ∧ 240 + c / 262144 ≤ 223) := by omega
        have e2 : ¬ (224 ≤ 240 + c / 262144 ∧ 240 + c / 262144 ≤ 239) := by omega
        have e3 : 240 ≤ 240 + c / 262144 ∧ 240 + c / 262144 ≤ 244 := by omega
        have e4 : IsCont (128 + c / 4096 % 64) ∧ IsCont (128 + c / 64 % 64) ∧
            IsCont (128 + c % 64) :=
          ⟨⟨by omega, by omega⟩, ⟨by omega, by omega⟩, ⟨by omega, by omega⟩⟩
        have ev : (240 + c / 262144 - 240) * 262144 + (128 + c / 4096 % 64 - 128) * 4096 +
            (128 + c / 64 % 64 - 128) * 64 + (128 + c % 64 - 128) = c := by omega
        have e5 : 65536 ≤ c ∧ c < 1114112 := ⟨by omega, hlt⟩
        simp only [if_neg h1, if_neg h2, if_neg h3, List.cons_append, List.nil_append,
          utf8DecodeOne, if_neg e0, if_neg e1, if_neg e2, if_pos e3, if_pos e4, ev, if_pos e5]

theorem utf8DecodeAux_encode (s : List Nat) (hs : ValidCodes s) :
    ∀ fuel, (utf8Encode s).length ≤ fuel → utf8DecodeAux fuel (utf8Encode s) = s := by
  induction s with
  | nil => intro fuel _; cases fuel <;> simp [utf8Encode, utf8DecodeAux]
  | cons c s2 ih =>
    intro fuel hfuel
    have hc : ValidScalar c := hs c (by simp)
    have hs2 : ValidCodes s2 := fun x hx => hs x (by simp [hx])
    have henc : utf8Encode (c :: s2) = utf8EncodeChar c ++ utf8Encode s2 := by
      simp [utf8Encode]
    rw [henc] at hfuel ⊢
    have hne := utf8EncodeChar_ne_nil c
    obtain ⟨b, l, hbl⟩ : ∃ b l, utf8EncodeChar c = b :: l := by
      cases hh : utf8EncodeChar c with
      | nil => exact absurd hh hne
      | cons b l => exact ⟨b, l, rfl⟩
    have hlen1 : 1 ≤ (utf8EncodeChar c).length := by rw [hbl]; simp
    have hlenadd : (utf8EncodeChar c ++ utf8Encode s2).length =
        (utf8EncodeChar c).length + (utf8Encode s2).length := List.length_append _ _
    have hfuel1 : 1 ≤ fuel := by omega
    obtain ⟨f, rfl⟩ : ∃ f, fuel = f + 1 := ⟨fuel - 1, by omega⟩
    have hdec := utf8DecodeOne_encodeChar c hc (utf8Encode s2)
    rw [hbl] at hdec ⊢
    rw [List.cons_append]
    simp only [utf8DecodeAux, List.cons_append] at *
    rw [hdec]
    have hf2 : (utf8Encode s2).length ≤ f := by omega
    dsimp only
    rw [ih hs2 f hf2]

/-- Round-trip of the platform codec on well-formed strings. -/
theorem utf8Decode_encode (s : List Nat) (hs : ValidCodes s) :
    utf8Decode (utf8Encode s) = s :=
  utf8DecodeAux_encode s hs _ le_rfl

theorem utf8Encode_eq_nil (s : List Nat) (h : utf8Encode s = []) : s = [] := by
  cases s with
  | nil => rfl
  | cons c s2 =>
    exfalso
    have hne := utf8EncodeChar_ne_nil c
    have : utf8Encode (c :: s2) = utf8EncodeChar c ++ utf8Encode s2 := by simp [utf8Encode]
    rw [this] at h
    exact hne (List.append_eq_nil.mp h).1

theorem le32_length (n : Nat) : (le32 n).length = 4 := rfl

theorem leVal_le32 (n : Nat) (h : n < 4294967296) : leVal (le32 n) = n := by
  simp only [le32, leVal]
  omega

/-- Shape of memory after `writeLengthPrefixedString` writes prefix and bytes. -/
theorem write_prefix_bytes_shape (mem : Memory) (ptr : Nat) (bs : List Nat)
    (h : ptr + 4 + bs.length ≤ mem.length) :
    writeBytes (writeBytes mem ptr (le32 bs.length)) (ptr + 4) bs =
      mem.take ptr ++ le32 bs.length ++ bs ++ mem.drop (ptr + 4 + bs.length) := by
  have htp : (mem.take ptr).length = ptr := by
    rw [List.length_take]; omega
  have hm1 : writeBytes mem ptr (le32 bs.length) =
      (mem.take ptr ++ le32 bs.length) ++ mem.drop (ptr + 4) := by
    simp [writeBytes, le32_length, List.append_assoc]
  have hAlen : (mem.take ptr ++ le32 bs.length).length = ptr + 4 := by
    rw [List.length_append, htp, le32_length]
  rw [writeBytes, hm1]
  have htake : (((mem.take ptr ++ le32 bs.length) ++ mem.drop (ptr + 4)).take (ptr + 4)) =
      mem.take ptr ++ le32 bs.length := List.take_left' hAlen
  have hdrop : (((mem.take ptr ++ le32 bs.length) ++ mem.drop (ptr + 4)).drop
      (ptr + 4 + bs.length)) = mem.drop (ptr + 4 + bs.length) := by
    rw [List.drop_append_eq_append_drop]
    have h1 : (mem.take ptr ++ le32 bs.length).drop (ptr + 4 + bs.length) = [] := by
      apply List.drop_eq_nil_of_le
      omega
    rw [h1, List.nil_append, hAlen, List.drop_drop]
    congr 1
    omega
  rw [htake, hdrop]

/-- CLAIM C2 counterexample: with `ptr = 0` and `len = 10` on a 4-byte memory
we have `ptr + len > memory.length`, yet `readRawString` returns the empty
string instead of failing with the out-of-bounds error, because the
null-pointer/zero-length early return precedes the bounds check. -/
theorem readRawString_oob_counterexample :
    ([0, 0, 0, 0] : Memory).length < 0 + 10 ∧
      readRawString [0, 0, 0, 0] 0 10 = .ok [] ∧
      readRawString [0, 0, 0, 0] 0 10 ≠ .error .outOfBounds := by
  refine ⟨by decide, by simp [readRawString], by simp [readRawString]⟩

/-- CLAIM C2 (amended): `readRawString` returns the empty string whenever
`ptr = 0` or `len = 0` (even out of bounds); otherwise it fails with
out-of-bounds exactly when `ptr + len` exceeds the memory size, reading no
byte, and otherwise returns the UTF-8 decoding of exactly the `len` bytes
starting at `ptr`. -/
theorem readRawString_spec (mem : Memory) (ptr len : Nat) :
    (ptr = 0 ∨ len = 0 → readRawString mem ptr len = .ok []) ∧
    (ptr ≠ 0 → len ≠ 0 → mem.length < ptr + len →
      readRawString mem ptr len = .error .outOfBounds) ∧
    (ptr ≠ 0 → len ≠ 0 → ptr + len ≤ mem.length →
      readRawString mem ptr len = .ok (utf8Decode ((mem.drop ptr).take len))) := by
  refine ⟨fun h => ?_, fun h1 h2 h3 => ?_, fun h1 h2 h3 => ?_⟩
  · simp only [readRawString, if_pos h]
  · have hcond : ¬ (ptr = 0 ∨ len = 0) := by tauto
    simp only [readRawString, if_neg hcond, if_pos h3]
  · have hcond : ¬ (ptr = 0 ∨ len = 0) := by tauto
    have hlt : ¬ (mem.length < ptr + len) := by omega
    simp only [readRawString, if_neg hcond, if_neg hlt]

/-- Witness for the amended C2 theorem: reading one in-bounds byte. -/
theorem readRawString_spec_witness :
    readRawString [104, 105] 1 1 = .ok [105] := by
  have h := (readRawString_spec [104, 105] 1 1).2.2 (by decide) (by decide) (by decide)
  rw [h]
  rfl

/-- CLAIM C3: writing a well-formed string through the guest allocator and
reading it back as a length-prefixed string is the identity, provided the
allocator returned a non-null pointer to an in-bounds region of
`4 + utf8Length(s)` bytes (linear memory is at most 2^32 bytes); and the
write fails with the allocation error when the allocator returns null. -/
theorem writeLengthPrefixedString_roundtrip :
    (∀ (mem : Memory) (s : List Nat),
      writeLengthPrefixedString mem 0 s = .error .allocationFailed) ∧
    (∀ (mem : Memory) (ptr : Nat) (s : List Nat),
      ValidCodes s → ptr ≠ 0 →
      ptr + 4 + (utf8Encode s).length ≤ mem.length →
      mem.length ≤ 4294967296 →
      ∃ mem2, writeLengthPrefixedString mem ptr s = .ok (ptr, mem2) ∧
        readLengthPrefixedString mem2 ptr = .ok s) := by
  constructor
  · intro mem s
    simp [writeLengthPrefixedString]
  · intro mem ptr s hv hp hbound hcap
    have hL32 : (utf8Encode s).length < 4294967296 := by omega
    refine ⟨writeBytes (writeBytes mem ptr (le32 (utf8Encode s).length)) (ptr + 4)
      (utf8Encode s), ?_, ?_⟩
    · simp [writeLengthPrefixedString, if_neg hp]
    · have hshape := write_prefix_bytes_shape mem ptr (utf8Encode s) hbound
      set mem2 := writeBytes (writeBytes mem ptr (le32 (utf8Encode s).length)) (ptr + 4)
        (utf8Encode s) with hmem2
      have htp : (mem.take ptr).length = ptr := by
        rw [List.length_take]; omega
      have hlen2 : mem2.length = mem.length := by
        rw [hshape]
        simp only [List.length_append, htp, le32_length, List.length_drop]
        omega
      have hdp : mem2.drop ptr =
          le32 (utf8Encode s).length ++ (utf8Encode s ++ mem.drop (ptr + 4 + (utf8Encode s).length)) := by
        rw [hshape, List.append_assoc, List.append_assoc]
        exact List.drop_left' htp
      have hrd32 : readLe32 mem2 ptr = (utf8Encode s).length := by
        rw [readLe32, hdp, List.take_left' (le32_length _)]
        exact leVal_le32 _ hL32
      have hdp4 : mem2.drop (ptr + 4) =
          utf8Encode s ++ mem.drop (ptr + 4 + (utf8Encode s).length) := by
        have hAlen : (mem.take ptr ++ le32 (utf8Encode s).length).length = ptr + 4 := by
          rw [List.length_append, htp, le32_length]
        rw [hshape, List.append_assoc]
        rw [show mem.take ptr ++ le32 (utf8Encode s).length ++
          (utf8Encode s ++ mem.drop (ptr + 4 + (utf8Encode s).length)) =
          (mem.take ptr ++ le32 (utf8Encode s).length) ++
          (utf8Encode s ++ mem.drop (ptr + 4 + (utf8Encode s).length)) from by
            simp [List.append_assoc]]
        exact List.drop_left' hAlen
      by_cases hL0 : (utf8Encode s).length = 0
      · have hs0 : s = [] := utf8Encode_eq_nil s (List.length_eq_zero.mp hL0)
        subst hs0
        simp only [readLengthPrefixedString, if_neg hp]
        rw [if_neg (by omega), hrd32, if_pos hL0]
      · simp only [readLengthPrefixedString, if_neg hp]
        rw [if_neg (by omega), hrd32, if_neg hL0, if_neg (by omega), hdp4,
          List.take_left' rfl, utf8Decode_encode s hv]

/-- Witness for C3: round-trip of a string with 1-, 2-, 3- and 4-byte UTF-8
characters through a 20-byte memory at pointer 1. -/
theorem writeLengthPrefixedString_roundtrip_witness :
    ∃ mem2,
      writeLengthPrefixedString (List.replicate 20 0) 1 [104, 233, 20013, 128512] =
        .ok (1, mem2) ∧
      readLengthPrefixedString mem2 1 = .ok [104, 233, 20013, 128512] :=
  writeLengthPrefixedString_roundtrip.2 (List.replicate 20 0) 1 [104, 233, 20013, 128512]
    (by decide) (by decide) (by decide) (by decide)

/-- CLAIM C5: matching scans the registered routes in registration order and
returns the first route whose method (or `*`) and compiled pattern match; in
particular, when every earlier method-matching route fails the pattern test,
the first matching route wins — so a static pattern registered before a
parameterized one that also matches the same literal path receives that
path. -/
theorem RouteRegistry_match_first
    (method path : String) (rs2 : List RouteHandler) (r : RouteHandler)
    (caps : List (List Char)) (ps : List (String × List Nat)) :
    ∀ rs1 : List RouteHandler,
    (∀ r2 ∈ rs1, (r2.method = method.toUpper ∨ r2.method = "*") →
      tokMatch r2.toks path.data = none) →
    (r.method = method.toUpper ∨ r.method = "*") →
    tokMatch r.toks path.data = some caps →
    buildParams r.paramNames caps = some ps →
    matchRoute (rs1 ++ r :: rs2) method path = .ok (some (r, ps)) := by
  intro rs1
  induction rs1 with
  | nil =>
    intro _ hm hmatch hps
    simp only [matchRoute, List.nil_append, matchGo, if_pos hm, hmatch, hps]
  | cons r2 rest ih =>
    intro hskip hm hmatch hps
    have hrec := ih (fun x hx => hskip x (by simp [hx])) hm hmatch hps
    simp only [matchRoute, List.cons_append, matchGo] at hrec ⊢
    by_cases hcond : r2.method = method.toUpper ∨ r2.method = "*"
    · rw [if_pos hcond, hskip r2 (by simp) hcond]
      exact hrec
    · rw [if_neg hcond]
      exact hrec

/-- Witness for C5: `/users/:id` also matches the literal path `/users/me`,
yet the earlier-registered static route with handler index 0 wins. -/
theorem RouteRegistry_match_first_witness :
    matchRoute demoRoutes "GET" "/users/me" = .ok (some (demoStatic, [])) ∧
    tokMatch demoParam.toks "/users/me".data = some ["me".data] ∧
    demoStatic.handlerIndex = 0 ∧ demoParam.handlerIndex = 1 := by
  refine ⟨?_, by rfl, rfl, rfl⟩
  have h := RouteRegistry_match_first "GET" "/users/me" [demoParam] demoStatic [] []
    [] (by intro r2 hr2; simp at hr2) (Or.inl rfl) (by rfl) (by rfl)
  have hEq : demoRoutes = [] ++ demoStatic :: [demoParam] := by rfl
  rw [hEq]
  exact h

theorem mapGet_mapSet_self {α β : Type} [DecidableEq α]
    (m : List (α × β)) (k : α) (v : β) : mapGet (mapSet m k v) k = some v := by
  unfold mapSet
  by_cases hs : (mapGet m k).isSome
  · rw [if_pos hs]
    induction m with
    | nil => simp [mapGet] at hs
    | cons p rest ih =>
      by_cases hpk : p.1 = k
      · simp [mapGet, hpk]
      · have hs2 : (mapGet rest k).isSome := by
          simpa [mapGet, hpk] using hs
        simpa [mapGet, hpk] using ih hs2
  · rw [if_neg hs]
    induction m with
    | nil => simp [mapGet]
    | cons p rest ih =>
      have hpk : ¬ p.1 = k := by
        intro h
        exact hs (by simp [mapGet, h])
      have hs2 : ¬ (mapGet rest k).isSome := by
        intro h
        exact hs (by simp [mapGet, hpk, h])
      simpa [mapGet, hpk] using ih hs2

theorem mapGet_mapDelete {α β : Type} [DecidableEq α]
    (m : List (α × β)) (k : α) : mapGet (mapDelete m k) k = none := by
  induction m with
  | nil => rfl
  | cons p rest ih =>
    by_cases hpk : p.1 = k
    · simpa [mapDelete, hpk] using ih
    · simpa [mapDelete, List.filter, hpk, mapGet] using ih

theorem mapDelete_of_get_none {α β : Type} [DecidableEq α]
    (m : List (α × β)) (k : α) (h : mapGet m k = none) : mapDelete m k = m := by
  induction m with
  | nil => rfl
  | cons p rest ih =>
    by_cases hpk : p.1 = k
    · simp [mapGet, hpk] at h
    · have h2 : mapGet rest k = none := by
        simpa [mapGet, hpk] using h
      simpa [mapDelete, List.filter, hpk] using ih h2

theorem mapGet_eq_none_of_not_mem {α β : Type} [DecidableEq α]
    (m : List (α × β)) (k : α) (h : k ∉ m.map Prod.fst) : mapGet m k = none := by
  induction m with
  | nil => rfl
  | cons p rest ih =>
    have hpk : ¬ p.1 = k := by
      intro hp
      exact h (by simp [hp])
    have h2 : k ∉ rest.map Prod.fst := fun hmem => h (by simp [hmem])
    simpa [mapGet, hpk] using ih h2

theorem mapDelete_length {α β : Type} [DecidableEq α]
    (m : List (α × β)) (k : α) (v : β) (hnd : (m.map Prod.fst).Nodup)
    (h : mapGet m k = some v) : (mapDelete m k).length + 1 = m.length := by
  induction m with
  | nil => simp [mapGet] at h
  | cons p rest ih =>
    by_cases hpk : p.1 = k
    · have hnotmem : k ∉ rest.map Prod.fst := by
        rw [← hpk]
        exact (List.nodup_cons.mp (by simpa using hnd)).1
      have hnone : mapGet rest k = none := mapGet_eq_none_of_not_mem rest k hnotmem
      have hdel : mapDelete (p :: rest) k = mapDelete rest k := by
        simp [mapDelete, List.filter, hpk]
      rw [hdel, mapDelete_of_get_none rest k hnone]
      simp
    · have hrest : mapGet rest k = some v := by
        simpa [mapGet, hpk] using h
      have hnd2 : (rest.map Prod.fst).Nodup :=
        (List.nodup_cons.mp (by simpa using hnd)).2
      have := ih hnd2 hrest
      have hdel : mapDelete (p :: rest) k = p :: mapDelete rest k := by
        simp [mapDelete, List.filter, hpk]
      rw [hdel]
      simp only [List.length_cons]
      omega

/-- CLAIM C6: `get` of an unknown id returns absent and leaves the store
unchanged; `get` of a record whose `expiresAt` lies strictly in the past
returns absent, deletes the record as a side effect of the lookup, and (with
the map's keys distinct, as the store maintains) `size()` afterwards drops by
one. -/
theorem SessionStore_get_expired (st : SessionStoreM) (now : Int) (sessionId : String) :
    (mapGet st.sessions sessionId = none →
      InMemorySessionStore.get st now sessionId = (none, st)) ∧
    (∀ s, mapGet st.sessions sessionId = some s → s.expiresAt < now →
      (InMemorySessionStore.get st now sessionId).1 = none ∧
      mapGet (InMemorySessionStore.get st now sessionId).2.sessions sessionId = none ∧
      ((st.sessions.map Prod.fst).Nodup →
        InMemorySessionStore.size (InMemorySessionStore.get st now sessionId).2 + 1 =
          InMemorySessionStore.size st)) := by
  constructor
  · intro h
    simp [InMemorySessionStore.get, h]
  · intro s hs hexp
    have hget : InMemorySessionStore.get st now sessionId =
        (none, { sessions := mapDelete st.sessions sessionId }) := by
      simp [InMemorySessionStore.get, hs, if_pos hexp]
    rw [hget]
    refine ⟨rfl, mapGet_mapDelete st.sessions sessionId, fun hnd => ?_⟩
    exact mapDelete_length st.sessions sessionId s hnd hs

/-- Witness for C6: the session created with `ttlSeconds = 1` is absent 2
simulated seconds later, and the lookup removed it (`size` drops to 0); an
unknown id is also absent. -/
theorem SessionStore_get_expired_witness :
    (InMemorySessionStore.get demoStore 2000 "sid").1 = none ∧
    InMemorySessionStore.size (InMemorySessionStore.get demoStore 2000 "sid").2 = 0 ∧
    InMemorySessionStore.get demoStore 2000 "nope" = (none, demoStore) := by
  have h := (SessionStore_get_expired demoStore 2000 "sid").2
    { userId := "u", role := "user", claims := [], createdAt := 0, expiresAt := 1000 }
    (by decide) (by decide)
  have hsz := h.2.2 (by decide)
  have hu := (SessionStore_get_expired demoStore 2000 "nope").1 (by decide)
  refine ⟨h.1, ?_, hu⟩
  have hone : InMemorySessionStore.size demoStore = 1 := by decide
  omega

/-- CLAIM C7 counterexample: `ttlSeconds = 0` is accepted unchanged by
`create` (reachable from the guest through `_session_create_with_ttl`), and
the stored record then has `expiresAt = createdAt`, violating the claimed
strict inequality. -/
theorem session_ttl_zero_counterexample :
    mapGet (sessionCreateWithTtl { sessions := [] } "sid" 0 "u" "user" [] 0).sessions
        "sid" =
      some (⟨"u", "user", [], 0, 0⟩ : SessionData) ∧
    ¬ ((0 : Int) < 0) := by
  exact ⟨by decide, by decide⟩

/-- CLAIM C7 (amended): every record stored by `create` with a positive
`ttlSeconds` (the only values for which the invariant can hold, since the
source applies no validation) satisfies `createdAt < expiresAt`. -/
theorem session_create_pos_ttl (st : SessionStoreM) (sessionId : String) (now : Int)
    (userId role : String) (claims : List (String × String)) (ttl : Int)
    (h : 0 < ttl) :
    ∃ s, mapGet (InMemorySessionStore.create st sessionId now userId role claims
        ttl).sessions sessionId = some s ∧ s.createdAt < s.expiresAt := by
  refine ⟨_, mapGet_mapSet_self st.sessions sessionId _, ?_⟩
  simp only []
  omega

/-- Witness for the amended C7 theorem at `ttlSeconds = 1`. -/
theorem session_create_pos_ttl_witness :
    ∃ s, mapGet (InMemorySessionStore.create { sessions := [] } "sid" 5 "u" "user" []
        1).sessions "sid" = some s ∧ s.createdAt < s.expiresAt :=
  session_create_pos_ttl { sessions := [] } "sid" 5 "u" "user" [] 1 (by decide)

/-- CLAIM C8 counterexample: pointer 5 is untracked (and `free` is exported),
yet `mem_release` invokes the guest deallocator on it — the claimed no-op
holds only for the refcount map, not for the deallocator call. -/
theorem mem_release_untracked_counterexample :
    mapGet ([] : List (Nat × Nat)) 5 = none ∧
    (mem_release true { scopeStack := [], refCounts := [], freeCalls := [] } 5).freeCalls =
      [5] ∧
    (mem_release true { scopeStack := [], refCounts := [], freeCalls := [] } 5).refCounts =
      [] := by
  exact ⟨by decide, by decide, by decide⟩

/-- CLAIM C8 (amended): `mem_release` on the null pointer is a no-op; on a
nonzero untracked pointer it leaves the refcount map unchanged but invokes
the guest deallocator when exported; on a tracked pointer with count 1 it
invokes the deallocator (when exported) and removes the entry; with count at
least 2 it only decrements. -/
theorem mem_release_spec (hasFree : Bool) (st : MemRT) (ptr : Nat) :
    (ptr = 0 → mem_release hasFree st ptr = st) ∧
    (ptr ≠ 0 → mapGet st.refCounts ptr = none →
      (mem_release hasFree st ptr).refCounts = st.refCounts ∧
      (mem_release hasFree st ptr).freeCalls =
        (if hasFree then st.freeCalls ++ [ptr] else st.freeCalls)) ∧
    (ptr ≠ 0 → mapGet st.refCounts ptr = some 1 →
      (mem_release hasFree st ptr).refCounts = mapDelete st.refCounts ptr ∧
      mapGet (mem_release hasFree st ptr).refCounts ptr = none ∧
      (mem_release hasFree st ptr).freeCalls =
        (if hasFree then st.freeCalls ++ [ptr] else st.freeCalls)) ∧
    (∀ c, ptr ≠ 0 → mapGet st.refCounts ptr = some (c + 2) →
      rcLookup (mem_release hasFree st ptr).refCounts ptr = c + 1 ∧
      (mem_release hasFree st ptr).freeCalls = st.freeCalls) := by
  refine ⟨fun h0 => by simp [mem_release, h0], fun hnz hun => ?_, fun hnz h1 => ?_,
    fun c hnz hc => ?_⟩
  · have hcount : rcLookup st.refCounts ptr = 0 := by simp [rcLookup, hun]
    have : mem_release hasFree st ptr =
        { st with refCounts := mapDelete st.refCounts ptr
                  freeCalls := if hasFree then st.freeCalls ++ [ptr] else st.freeCalls } := by
      simp [mem_release, hnz, hcount]
    rw [this, mapDelete_of_get_none st.refCounts ptr hun]
    exact ⟨rfl, rfl⟩
  · have hcount : rcLookup st.refCounts ptr = 1 := by simp [rcLookup, h1]
    have : mem_release hasFree st ptr =
        { st with refCounts := mapDelete st.refCounts ptr
                  freeCalls := if hasFree then st.freeCalls ++ [ptr] else st.freeCalls } := by
      simp [mem_release, hnz, hcount]
    rw [this]
    exact ⟨rfl, mapGet_mapDelete st.refCounts ptr, rfl⟩
  · have hcount : rcLookup st.refCounts ptr = c + 2 := by simp [rcLookup, hc]
    have : mem_release hasFree st ptr =
        { st with refCounts := mapSet st.refCounts ptr (c + 2 - 1) } := by
      simp [mem_release, hnz, hcount]
    rw [this]
    constructor
    · simp [rcLookup, mapGet_mapSet_self]
    · rfl

/-- Witness for the amended C8 theorem: releasing a tracked pointer with
count 2 decrements it to 1 and does not call the deallocator. -/
theorem mem_release_spec_witness :
    rcLookup (mem_release true
      { scopeStack := [], refCounts := [(7, 2)], freeCalls := [] } 7).refCounts 7 = 1 ∧
    (mem_release true
      { scopeStack := [], refCounts := [(7, 2)], freeCalls := [] } 7).freeCalls = [] := by
  have h := (mem_release_spec true
    { scopeStack := [], refCounts := [(7, 2)], freeCalls := [] } 7).2.2.2 0
    (by decide) (by decide)
  exact h

/-- CLAIM C10: the scope stack and refcount map are module-global: creating a
fresh instance for a new request performs no reset (`createInstanceMemEffect`
is the identity), so an allocation tracked while one instance executed is
still tracked afterwards (count 1) and a `mem_release` — or a
`mem_scope_pop` of the scope it was recorded in — performed while a different
instance executes frees that very pointer through the deallocator. -/
theorem memoryRuntime_shared_across_instances (st : MemRT) (size : Int) (p : Nat)
    (hsize : 0 < size) (hp : p ≠ 0) :
    (∀ st2 : MemRT, createInstanceMemEffect st2 = st2) ∧
    rcLookup (mem_alloc st size p).1.refCounts p = 1 ∧
    (mem_release true (createInstanceMemEffect (mem_alloc st size p).1) p).freeCalls =
      (mem_alloc st size p).1.freeCalls ++ [p] ∧
    (mem_scope_pop true (createInstanceMemEffect
        (mem_alloc (mem_scope_push st) size p).1)).freeCalls =
      (mem_alloc (mem_scope_push st) size p).1.freeCalls ++ [p] := by
  have hnotle : ¬ size ≤ 0 := by omega
  have halloc : (mem_alloc st size p).1 =
      { st with scopeStack := pushAlloc st.scopeStack p
                refCounts := mapSet st.refCounts p 1 } := by
    simp [mem_alloc, hnotle]
  have hrc : rcLookup (mapSet st.refCounts p 1) p = 1 := by
    simp [rcLookup, mapGet_mapSet_self]
  refine ⟨fun st2 => rfl, by rw [halloc]; exact hrc, ?_, ?_⟩
  · rw [halloc]
    simp [createInstanceMemEffect, mem_release, hp, hrc]
  · have halloc2 : (mem_alloc (mem_scope_push st) size p).1 =
        { scopeStack := [p] :: st.scopeStack
          refCounts := mapSet st.refCounts p 1
          freeCalls := st.freeCalls } := by
      simp [mem_alloc, hnotle, mem_scope_push, pushAlloc]
    rw [halloc2]
    simp [createInstanceMemEffect, mem_scope_pop, List.foldl, releaseScopeEntry, hrc]

/-- Witness for C10 at a concrete allocation. -/
theorem memoryRuntime_shared_across_instances_witness :
    rcLookup (mem_alloc { scopeStack := [], refCounts := [], freeCalls := [] }
      8 16).1.refCounts 16 = 1 ∧
    (mem_release true (createInstanceMemEffect
        (mem_alloc { scopeStack := [], refCounts := [], freeCalls := [] } 8 16).1)
      16).freeCalls =
      (mem_alloc { scopeStack := [], refCounts := [], freeCalls := [] } 8 16).1.freeCalls
        ++ [16] := by
  have h := memoryRuntime_shared_across_instances
    { scopeStack := [], refCounts := [], freeCalls := [] } 8 16 (by decide) (by decide)
  exact ⟨h.2.1, h.2.2.1⟩

/-- CLAIM C1 evaluated at the failing input: with a database configured, the
first `_db_query` (driver result 1) returns the default empty envelope, not
result 1; the second call (driver result 2) returns the first query's cached
result, not its own; `_db_execute` likewise returns the previously cached
count (initially 0) instead of the current statement's count. -/
theorem dbQuery_returns_stale :
    ((dbQuery initialDbBridgeState true 1).1 = DbRet.defaultEmpty ∧
      (dbQuery initialDbBridgeState true 1).1 ≠ DbRet.result 1) ∧
    ((dbQuery (dbQuery initialDbBridgeState true 1).2 true 2).1 = DbRet.result 1 ∧
      (dbQuery (dbQuery initialDbBridgeState true 1).2 true 2).1 ≠ DbRet.result 2) ∧
    ((dbExecute initialDbBridgeState true 7).1 = 0 ∧
      (dbExecute initialDbBridgeState true 7).1 ≠ 7) ∧
    ((dbExecute (dbExecute initialDbBridgeState true 7).2 true 9).1 = 7 ∧
      (dbExecute (dbExecute initialDbBridgeState true 7).2 true 9).1 ≠ 9) := by
  exact ⟨⟨by decide, by decide⟩, ⟨by decide, by decide⟩, ⟨by decide, by decide⟩,
    ⟨by decide, by decide⟩⟩

/-- CLAIM C4 evaluated on post-startup registrations: every `_http_route`
call is accepted and appends to the shared registry even after startup
completed — no rejection path exists in the source. -/
theorem httpRoute_after_startup_accepted :
    ∀ (routes : List RouteHandler) (method pat : String) (handlerIndex : Nat),
      (httpRoute true routes method pat handlerIndex).1 = RegOutcome.accepted ∧
      (httpRoute true routes method pat handlerIndex).2 =
        register routes method pat handlerIndex false none ∧
      (httpRoute true routes method pat handlerIndex).2.length = routes.length + 1 := by
  intro routes method pat handlerIndex
  refine ⟨rfl, rfl, ?_⟩
  simp [httpRoute, register]

/-- CLAIM C9 counterexample: the handler set body `[65]` explicitly via
`_http_set_body`, then returned pointer 1 whose length-prefixed string is
`[66]`; the adoption step replaces the explicitly set body with `[66]`. -/
theorem adoptHandlerResult_overwrites_counterexample :
    adoptHandlerResult (http_set_body defaultResponse [65]) 1 [99, 1, 0, 0, 0, 66] =
      .ok (⟨200, [66]⟩ : RespState) ∧
    ((⟨200, [66]⟩ : RespState)).body ≠
      (http_set_body defaultResponse [65]).body := by
  exact ⟨by rfl, by decide⟩

/-- CLAIM C9 (amended): the string at a positive returned pointer is adopted
as the response body whenever it is non-empty, replacing any body set
explicitly via capability calls; a body set explicitly survives only when the
returned value is not positive or the returned string is empty; a read
failure propagates. -/
theorem adoptHandlerResult_spec (resp : RespState) (resultPtr : Int) (mem : Memory) :
    (resultPtr ≤ 0 → adoptHandlerResult resp resultPtr mem = .ok resp) ∧
    (∀ s, 0 < resultPtr → readLengthPrefixedString mem resultPtr.toNat = .ok s →
      s ≠ [] → adoptHandlerResult resp resultPtr mem = .ok { resp with body := s }) ∧
    (0 < resultPtr → readLengthPrefixedString mem resultPtr.toNat = .ok [] →
      adoptHandlerResult resp resultPtr mem = .ok resp) ∧
    (∀ e, 0 < resultPtr → readLengthPrefixedString mem resultPtr.toNat = .error e →
      adoptHandlerResult resp resultPtr mem = .error e) := by
  refine ⟨fun hle => ?_, fun s hpos hread hne => ?_, fun hpos hread => ?_,
    fun e hpos hread => ?_⟩
  · simp [adoptHandlerResult, show ¬ 0 < resultPtr by omega]
  · simp [adoptHandlerResult, hpos, hread, hne]
  · simp [adoptHandlerResult, hpos, hread]
  · simp [adoptHandlerResult, hpos, hread]

/-- Witness for the amended C9 theorem: a zero return value leaves the
explicitly set body in place. -/
theorem adoptHandlerResult_spec_witness :
    adoptHandlerResult (http_set_body defaultResponse [65]) 0 [] =
      .ok (http_set_body defaultResponse [65]) :=
  (adoptHandlerResult_spec (http_set_body defaultResponse [65]) 0 []).1 (by decide)

end CleanNode

